import Mathlib

/-!
Shallow embedding of the payroll-text parser in `extract_pdf.py`
(class `DataExtractor`).  Lines of text are parsed with three
hand-rolled matchers that implement the exact regular expressions of the
source, numeric tokens are cleaned by `cleanCurrency` (the model of
`clean_currency`), and the per-line state machine of `parse_text_data`
is `stepLine`.  Rationals stand in for Python decimals produced by
`float` on the cleaned digit strings.
-/

/-- Whitespace as matched by the ASCII portion of Python's `\s` and
`str.strip()`. -/
def isPySpace (c : Char) : Bool :=
  c = ' ' || c = '\t' || c = '\n' || c = '\r' || c = '\x0b' || c = '\x0c'

/-- `str.strip()` on a list of characters. -/
def trimList (l : List Char) : List Char :=
  ((l.dropWhile isPySpace).reverse.dropWhile isPySpace).reverse

/-- `str.strip()` on a string (model of `line.strip()`). -/
def pyStrip (s : String) : String := ⟨trimList s.data⟩

/-- Characters kept by `re.sub(r'[^\d.-]', '', value)`: digits, the
decimal point and the minus sign. -/
def keepNumChar (c : Char) : Bool :=
  c.isDigit || c = '.' || c = '-'

/-- Numeric value of a digit string (most significant first). -/
def digitsVal (ds : List Char) : Nat :=
  ds.foldl (fun a c => a * 10 + (c.toNat - 48)) 0

/-- Python's `float()` restricted to the strings that survive
`re.sub(r'[^\d.-]', '', ·)`: an optional sign, then digits with at most
one decimal point and at least one digit; anything else raises
`ValueError`, modelled as `none`.  The decimal value is built as an
exact rational with `mkRat`. -/
def parsePyFloat (l : List Char) : Option ℚ :=
  let (neg, l1) :=
    match l with
    | '-' :: r => (true, r)
    | '+' :: r => (false, r)
    | _ => (false, l)
  let ip := l1.takeWhile Char.isDigit
  let r1 := l1.dropWhile Char.isDigit
  match r1 with
  | [] =>
    if ip.isEmpty then none
    else
      let n : Int := (digitsVal ip : Int)
      some (mkRat (if neg then -n else n) 1)
  | '.' :: r2 =>
    let fp := r2.takeWhile Char.isDigit
    let r3 := r2.dropWhile Char.isDigit
    if ¬ r3.isEmpty then none
    else if ip.isEmpty ∧ fp.isEmpty then none
    else
      let n : Int := ((digitsVal ip * 10 ^ fp.length + digitsVal fp : Nat) : Int)
      some (mkRat (if neg then -n else n) (10 ^ fp.length))
  | _ => none

/-- Model of `DataExtractor.clean_currency`: `None`/empty/blank input
yields `none`; otherwise every character outside `[\d.-]` is removed
and the remainder is parsed, a failed parse yielding `none`. -/
def cleanCurrency : Option String → Option ℚ
  | none => none
  | some s =>
    if s = "" ∨ trimList s.data = [] then none
    else
      let cleaned := s.data.filter keepNumChar
      if cleaned = [] then none else parsePyFloat cleaned

/-- Consume an exact literal prefix, returning the rest. -/
def dropLit : List Char → List Char → Option (List Char)
  | [], l => some l
  | _ :: _, [] => none
  | c :: cs, x :: xs => if x = c then dropLit cs xs else none

/-- `\s+`: require at least one whitespace character, return the rest. -/
def takeSpacesOne (l : List Char) : Option (List Char) :=
  if (l.takeWhile isPySpace).isEmpty then none else some (l.dropWhile isPySpace)

/-- A character of a `[\d.]+` numeric token. -/
def isNumTokChar (c : Char) : Bool := c.isDigit || c = '.'

/-- `([\d.]+)`: a maximal nonempty run of digits and dots. -/
def matchNumTok (l : List Char) : Option (List Char × List Char) :=
  let t := l.takeWhile isNumTokChar
  if t.isEmpty then none else some (t, l.dropWhile isNumTokChar)

/-- `(\d{2}/\d{2}/\d{2})`: a date token of exactly 2/2/2 digits. -/
def matchDate : List Char → Option (String × List Char)
  | a :: b :: '/' :: c :: d :: '/' :: e :: f :: rest =>
    if a.isDigit && b.isDigit && c.isDigit && d.isDigit && e.isDigit && f.isDigit then
      some (⟨[a, b, '/', c, d, '/', e, f]⟩, rest)
    else none
  | _ => none

/-- `re.search`: try the pattern at every start position, leftmost
success wins (each of our patterns is deterministic at a fixed start
position, so per-position maximal munch agrees with the regex engine). -/
def searchGroups {α : Type} (f : List Char → Option α) : List Char → Option α
  | [] => f []
  | c :: rest =>
    match f (c :: rest) with
    | some x => some x
    | none => searchGroups f rest

/-- `'needle' in line`: substring containment. -/
def containsSub (needle : List Char) : List Char → Bool
  | [] => (dropLit needle []).isSome
  | c :: rest => (dropLit needle (c :: rest)).isSome || containsSub needle rest

/-- Model of `re.match(r'^(\d+)\s*[–-]\s*([A-Za-z]+,\s*[A-Za-z]+)', line)`:
anchored at the start, returning groups 1 (the id digits) and 2 (the raw
name substring as matched). -/
def headerMatch (l : List Char) : Option (String × String) :=
  let ds := l.takeWhile Char.isDigit
  let r1 := l.dropWhile Char.isDigit
  if ds.isEmpty then none
  else
    match r1.dropWhile isPySpace with
    | [] => none
    | c :: r3 =>
      if c = '–' || c = '-' then
        let r4 := r3.dropWhile isPySpace
        let w1 := r4.takeWhile Char.isAlpha
        let r5 := r4.dropWhile Char.isAlpha
        if w1.isEmpty then none
        else
          match r5 with
          | ',' :: r6 =>
            let sp := r6.takeWhile isPySpace
            let r7 := r6.dropWhile isPySpace
            let w2 := r7.takeWhile Char.isAlpha
            if w2.isEmpty then none
            else some (⟨ds⟩, ⟨w1 ++ [','] ++ sp ++ w2⟩)
          | _ => none
      else none

/-- The five capture groups of the earnings-row regex
`(Hourly-)\s+(\d{2}/\d{2}/\d{2})\s+([\d.]+)\s+([\d.]+)\s+([\d.]+)`. -/
structure EarnGroups where
  g1 : String
  date : String
  rateTok : String
  hoursTok : String
  amountTok : String
deriving Repr, DecidableEq

/-- The earnings-row regex applied at one fixed start position. -/
def matchEarningAt (l : List Char) : Option EarnGroups := do
  let r0 ← dropLit "Hourly-".data l
  let r1 ← takeSpacesOne r0
  let (d, r2) ← matchDate r1
  let r3 ← takeSpacesOne r2
  let (t1, r4) ← matchNumTok r3
  let r5 ← takeSpacesOne r4
  let (t2, r6) ← matchNumTok r5
  let r7 ← takeSpacesOne r6
  let (t3, _) ← matchNumTok r7
  pure ⟨"Hourly-", d, ⟨t1⟩, ⟨t2⟩, ⟨t3⟩⟩

/-- `re.search` of the earnings-row regex over a line. -/
def earningGroups (l : List Char) : Option EarnGroups :=
  searchGroups matchEarningAt l

/-- The total regex `Total Earnings:\s+([\d.]+)\s+([\d.]+)` at one
fixed start position, returning groups 1 and 2. -/
def matchTotalAt (l : List Char) : Option (String × String) := do
  let r0 ← dropLit "Total Earnings:".data l
  let r1 ← takeSpacesOne r0
  let (t1, r2) ← matchNumTok r1
  let r3 ← takeSpacesOne r2
  let (t2, _) ← matchNumTok r3
  pure (⟨t1⟩, ⟨t2⟩)

/-- `re.search` of the total regex over a line. -/
def totalSearch (l : List Char) : Option (String × String) :=
  searchGroups matchTotalAt l

/-- The literal substring tested by `'Total Earnings:' in line`. -/
def totalMarker : List Char := "Total Earnings:".data

/-- One earnings row, as built at lines 70-76 of the source.  `rate`,
`hours` and `amount` are results of `clean_currency`, hence optional. -/
structure EarningEntry where
  type : String
  date : String
  rate : Option ℚ
  hours : Option ℚ
  amount : Option ℚ
deriving Repr, DecidableEq

/-- One employee record.  In the Python dict the keys `total_hours` and
`total_amount` exist only after a matching "Total Earnings:" line, and
the stored value can itself be `None` (a token that fails cleaning), so
both fields are `Option (Option ℚ)`: `none` = key absent. -/
structure EmployeeRecord where
  employee_id : String
  employee_name : String
  earnings : List EarningEntry
  total_hours : Option (Option ℚ)
  total_amount : Option (Option ℚ)
deriving Repr, DecidableEq

/-- The loop state of `parse_text_data`: `self.data['employees']` minus
its aliased last element, and the `current_employee` local.  The Python
list of employees is always `finished ++ current.toList`. -/
structure ParserState where
  finished : List EmployeeRecord
  current : Option EmployeeRecord
deriving Repr, DecidableEq

/-- The record built at lines 48-52 of the source when the header
pattern matches: group 1 is the id, group 2 is stripped for the name. -/
def newEmployee (g : String × String) : EmployeeRecord :=
  { employee_id := g.1, employee_name := pyStrip g.2, earnings := [],
    total_hours := none, total_amount := none }

/-- The entry built from the five capture groups at lines 64-76. -/
def mkEarning (g : EarnGroups) : EarningEntry :=
  { type := ⟨trimList (((g.g1.data.dropWhile (· = '-')).reverse.dropWhile (· = '-')).reverse)⟩
    date := g.date
    rate := cleanCurrency (some g.rateTok)
    hours := cleanCurrency (some g.hoursTok)
    amount := cleanCurrency (some g.amountTok) }

/-- The earnings-row search together with the field extraction of
lines 63-76 (`group(1).strip('-').strip()` etc.). -/
def earningOf (l : List Char) : Option EarningEntry :=
  (earningGroups l).map mkEarning

/-- Lines 43-54 of the source: test the header pattern, and on a match
push any current record and open a fresh one. -/
def applyHeader (st : ParserState) (l : List Char) : ParserState :=
  match headerMatch l with
  | some g => { finished := st.finished ++ st.current.toList, current := some (newEmployee g) }
  | none => st

/-- Lines 56-85 of the source: with a current record, first try the
earnings row (a match appends an entry and `continue`s, skipping the
total check), then the "Total Earnings:" substring plus total pattern
(a match overwrites both total fields). -/
def applyEarnTotal (st : ParserState) (l : List Char) : ParserState :=
  match st.current with
  | none => st
  | some cur =>
    match earningOf l with
    | some e => { st with current := some { cur with earnings := cur.earnings ++ [e] } }
    | none =>
      if containsSub totalMarker l then
        match totalSearch l with
        | some g =>
          { st with current := some { cur with
              total_hours := some (cleanCurrency (some g.1)),
              total_amount := some (cleanCurrency (some g.2)) } }
        | none => st
      else st

/-- One iteration of the line loop of `parse_text_data`: the line is
stripped once, the header test runs first (possibly replacing the
current record), then the earnings/total tests run on the same line. -/
def stepLine (st : ParserState) (line : String) : ParserState :=
  applyEarnTotal (applyHeader st (trimList line.data)) (trimList line.data)

/-- The whole line loop. -/
def runLines (st : ParserState) (lines : List String) : ParserState :=
  lines.foldl stepLine st

/-- Recover the Python `self.data['employees']` list from the loop
state. -/
def flushState (st : ParserState) : List EmployeeRecord :=
  st.finished ++ st.current.toList

/-- `parse_text_data` acting on the employees list: `current_employee`
starts as `None` on every call (line 36 of the source). -/
def parseLinesFrom (emps : List EmployeeRecord) (lines : List String) : List EmployeeRecord :=
  flushState (runLines { finished := emps, current := none } lines)

/-- Parsing one document fed as a single list of lines from a fresh
extractor. -/
def parseLines (lines : List String) : List EmployeeRecord :=
  parseLinesFrom [] lines

/-- `text.split('\n')` on a list of characters. -/
def splitLinesAux : List Char → List Char → List String
  | [], acc => [⟨acc.reverse⟩]
  | c :: cs, acc =>
    if c = '\n' then ⟨acc.reverse⟩ :: splitLinesAux cs [] else splitLinesAux cs (c :: acc)

/-- `text.split('\n')`, as at line 34 of the source. -/
def splitLines (s : String) : List String := splitLinesAux s.data []

/-- The instance state of `DataExtractor`: the stored path and
`self.data['employees']`. -/
structure DataExtractor where
  pdf_path : String
  employees : List EmployeeRecord
deriving Repr, DecidableEq

/-- `DataExtractor.__init__`. -/
def DataExtractor.init (path : String) : DataExtractor :=
  { pdf_path := path, employees := [] }

/-- One iteration of the page loop of `extract`: a page whose
`extract_text()` returned `None` or a falsy (empty) string is skipped,
otherwise `parse_text_data` runs on its text. -/
def feedPage (ex : DataExtractor) (text : Option String) : DataExtractor :=
  match text with
  | none => ex
  | some t =>
    if t = "" then ex
    else { ex with employees := parseLinesFrom ex.employees (splitLines t) }

/-- `extract`, with the PDF reader abstracted to the list of per-page
`extract_text()` results, fed strictly in page order. -/
def extractPages (ex : DataExtractor) (pages : List (Option String)) : DataExtractor :=
  pages.foldl feedPage ex

/-- JSON values, for the image of `json.dumps` in `to_json`. -/
inductive JValue where
  | null : JValue
  | num (q : ℚ) : JValue
  | str (s : String) : JValue
  | arr (elems : List JValue) : JValue
  | obj (fields : List (String × JValue)) : JValue

/-- An optional decimal serializes as a number or JSON `null`. -/
def optNumJson : Option ℚ → JValue
  | some q => .num q
  | none => .null

/-- Serialization of one earnings dict (all five keys always present). -/
def earningToJson (e : EarningEntry) : JValue :=
  .obj [("type", .str e.type), ("date", .str e.date), ("rate", optNumJson e.rate),
        ("hours", optNumJson e.hours), ("amount", optNumJson e.amount)]

/-- Serialization of one employee dict: `json.dumps` emits exactly the
keys present in the dict, so the two total keys appear only when they
were set by a matching "Total Earnings:" line. -/
def employeeToJson (r : EmployeeRecord) : JValue :=
  .obj ([("employee_id", .str r.employee_id), ("employee_name", .str r.employee_name),
         ("earnings", .arr (r.earnings.map earningToJson))]
    ++ (match r.total_hours with | some v => [("total_hours", optNumJson v)] | none => [])
    ++ (match r.total_amount with | some v => [("total_amount", optNumJson v)] | none => []))

/-- Serialization of `self.data`, the value written by `to_json`. -/
def resultToJson (emps : List EmployeeRecord) : JValue :=
  .obj [("employees", .arr (emps.map employeeToJson))]

/-- The field list of a JSON object. -/
def objFields : JValue → List (String × JValue)
  | .obj fs => fs
  | _ => []

/-- Look a key up in a JSON object (first occurrence). -/
def lookupField (j : JValue) (k : String) : Option JValue :=
  (objFields j).lookup k

/-- The spec's description of numeric cleaning, with no early-return
guard: strip every character that is not a digit, a decimal point or a
minus sign, then parse the remainder; an empty or unparseable
remainder is absent. -/
def cleanCurrencySpec (s : String) : Option ℚ :=
  let cleaned := s.data.filter keepNumChar
  if cleaned = [] then none else parsePyFloat cleaned

/-- The identifying projection of a record used by the earnings
assignment claim: id, name and earnings (totals are irrelevant to it). -/
def projRec (r : EmployeeRecord) : String × String × List EarningEntry :=
  (r.employee_id, r.employee_name, r.earnings)

/-- A line that does not match the employee-header pattern. -/
def notHeaderLine (s : String) : Bool :=
  (headerMatch (trimList s.data)).isNone

/-- The earnings entry extracted from a raw line, if any. -/
def earnOfLine (s : String) : Option EarningEntry :=
  earningOf (trimList s.data)

/-- The spec-level grouping of a document: lines before the first
header are dropped; each header line opens a group whose lines run
from the header itself up to (excluding) the next header line; the
group's earnings are the earnings rows of those lines in order. -/
def specEmployees : List String → List (String × String × List EarningEntry)
  | [] => []
  | ℓ :: rest =>
    match headerMatch (trimList ℓ.data) with
    | some g =>
      (g.1, pyStrip g.2, (ℓ :: rest.takeWhile notHeaderLine).filterMap earnOfLine)
        :: specEmployees (rest.dropWhile notHeaderLine)
    | none => specEmployees rest
termination_by lines => lines.length
decreasing_by
  · exact Nat.lt_succ_of_le ((List.dropWhile_suffix notHeaderLine).length_le)
  · exact Nat.lt_succ_of_le (Nat.le_refl _)

/-- Continuation of the spec-level grouping from an open record: the
record first absorbs the earnings rows up to the next header, then the
remaining lines are grouped as a fresh document. -/
def specCont : Option EmployeeRecord → List String → List (String × String × List EarningEntry)
  | none, lines => specEmployees lines
  | some r, lines =>
    (r.employee_id, r.employee_name,
      r.earnings ++ (lines.takeWhile notHeaderLine).filterMap earnOfLine)
      :: specEmployees (lines.dropWhile notHeaderLine)

/-- A line on which none of the three patterns fires: no header match,
no earnings-row match, no total match. -/
def lineNoMatch (s : String) : Bool :=
  (headerMatch (trimList s.data)).isNone && (earningOf (trimList s.data)).isNone
    && (totalSearch (trimList s.data)).isNone

/-- The two total fields of a record. -/
def totalsOf (r : EmployeeRecord) : Option (Option ℚ) × Option (Option ℚ) :=
  (r.total_hours, r.total_amount)

/-- The total fields of every record held by a loop state, in order. -/
def totalsList (st : ParserState) : List (Option (Option ℚ) × Option (Option ℚ)) :=
  (flushState st).map totalsOf

/-- A concrete employee record used to instantiate theorems with
hypotheses. -/
def sampleEmployee : EmployeeRecord :=
  { employee_id := "1001", employee_name := "Smith, John", earnings := [],
    total_hours := none, total_amount := none }

/-- The concrete entry extracted from `"Hourly- 01/02/25 10.00 5.00 50.00"`. -/
def sampleEntry : EarningEntry :=
  { type := "Hourly", date := "01/02/25", rate := some (mkRat 10 1),
    hours := some (mkRat 5 1), amount := some (mkRat 50 1) }

/-- The employees-only effect of one page, used to show that the page
loop never reads the stored path. -/
def pageFold (E : List EmployeeRecord) : Option String → List EmployeeRecord
  | none => E
  | some t => if t = "" then E else parseLinesFrom E (splitLines t)

/-!  Helper lemmas about the embedded operations. -/

theorem isPySpace_not_keepNum {c : Char} (h : isPySpace c = true) : keepNumChar c = false := by
  simp only [isPySpace, Bool.or_eq_true, decide_eq_true_eq] at h
  rcases h with ((((h | h) | h) | h) | h) | h <;> subst h <;> decide

theorem trimList_eq_nil_all_space {l : List Char} (h : trimList l = []) :
    ∀ c ∈ l, isPySpace c = true := by
  intro c hc
  unfold trimList at h
  rw [List.reverse_eq_nil_iff] at h
  have h4 : ∀ x ∈ l.dropWhile isPySpace, isPySpace x = true := by
    intro x hx
    exact List.dropWhile_eq_nil_iff.mp h x (List.mem_reverse.mpr hx)
  have hsplit := List.takeWhile_append_dropWhile isPySpace l
  rw [← hsplit] at hc
  rcases List.mem_append.mp hc with h5 | h5
  · exact List.mem_takeWhile_imp h5
  · exact h4 c h5

theorem applyEarnTotal_nil_cur (f : List EmployeeRecord) (l : List Char) :
    applyEarnTotal ⟨f, none⟩ l = ⟨f, none⟩ := rfl

theorem applyEarnTotal_some_cur (f : List EmployeeRecord) (cur : EmployeeRecord) (l : List Char) :
    ∃ cur', applyEarnTotal ⟨f, some cur⟩ l = ⟨f, some cur'⟩
      ∧ cur'.employee_id = cur.employee_id
      ∧ cur'.employee_name = cur.employee_name
      ∧ cur'.earnings = cur.earnings ++ (earningOf l).toList := by
  cases he : earningOf l with
  | some e =>
    exact ⟨{ cur with earnings := cur.earnings ++ [e] },
      by simp [applyEarnTotal, he], rfl, rfl, by simp [he]⟩
  | none =>
    by_cases hc : containsSub totalMarker l
    · cases ht : totalSearch l with
      | some g =>
        exact ⟨{ cur with total_hours := some (cleanCurrency (some g.1)),
                          total_amount := some (cleanCurrency (some g.2)) },
          by simp [applyEarnTotal, he, hc, ht], rfl, rfl, by simp [he]⟩
      | none =>
        exact ⟨cur, by simp [applyEarnTotal, he, hc, ht], rfl, rfl, by simp [he]⟩
    · exact ⟨cur, by simp [applyEarnTotal, he, hc], rfl, rfl, by simp [he]⟩

/-- C4: for every raw token, cleaning strips every character outside
digits, the decimal point and the minus sign and parses the remainder
(the early emptiness guards of the code never change the outcome);
cleaning `"$1,234.56"` yields 1234.56, cleaning an absent or empty
token yields absent, and cleaning `"abc"` yields absent rather than an
error. -/
theorem clean_currency_strips_and_parses :
    (∀ s : String, cleanCurrency (some s) = cleanCurrencySpec s)
    ∧ cleanCurrency none = none
    ∧ cleanCurrency (some "") = none
    ∧ cleanCurrency (some "$1,234.56") = some (mkRat 123456 100)
    ∧ cleanCurrency (some "abc") = none := by
  refine ⟨?_, rfl, by decide, by decide, by decide⟩
  intro s
  unfold cleanCurrency cleanCurrencySpec
  by_cases h1 : s = ""
  · subst h1
    decide
  · by_cases h2 : trimList s.data = []
    · have hfil : s.data.filter keepNumChar = [] := by
        rw [List.filter_eq_nil_iff]
        intro a ha h
        have hsp := trimList_eq_nil_all_space h2 a ha
        rw [isPySpace_not_keepNum hsp] at h
        exact Bool.false_ne_true h
      simp [h1, h2, hfil]
    · simp [h1, h2]

/-- C3: parsing the three scenario lines yields exactly one employee
record with id "1001", name "Smith, John", one earnings entry of type
"Hourly" dated "01/02/25" with rate 10, hours 5 and amount 50, and
totals 5 and 50 set on that record. -/
theorem scenario_three_lines :
    parseLines ["1001 – Smith, John", "Hourly- 01/02/25 10.00 5.00 50.00",
                "Total Earnings: 5.00 50.00"]
      = [{ employee_id := "1001", employee_name := "Smith, John",
           earnings := [{ type := "Hourly", date := "01/02/25", rate := some (mkRat 10 1),
                          hours := some (mkRat 5 1), amount := some (mkRat 50 1) }],
           total_hours := some (some (mkRat 5 1)),
           total_amount := some (some (mkRat 50 1)) }] := by
  decide

/-- C7: a line on which the total pattern fails to match never writes
total fields: after the step every record present before keeps its
total fields unchanged, at most extended by a freshly opened record
whose totals are unset, so parsing just continues. -/
theorem total_no_match_totals_unchanged (st : ParserState) (line : String)
    (h : totalSearch (trimList line.data) = none) :
    totalsList (stepLine st line) = totalsList st
    ∨ totalsList (stepLine st line) = totalsList st ++ [(none, none)] := by
  obtain ⟨f, c⟩ := st
  have hsl : stepLine ⟨f, c⟩ line
      = applyEarnTotal (applyHeader ⟨f, c⟩ (trimList line.data)) (trimList line.data) := rfl
  rw [hsl]
  cases hh : headerMatch (trimList line.data) with
  | some g =>
    obtain ⟨cur', hst, -, -, -⟩ :=
      applyEarnTotal_some_cur (f ++ c.toList) (newEmployee g) (trimList line.data)
    have hcur : cur'.total_hours = none ∧ cur'.total_amount = none := by
      rcases hst' : earningOf (trimList line.data) with - | e
      · by_cases hc : containsSub totalMarker (trimList line.data)
        · have : applyEarnTotal ⟨f ++ c.toList, some (newEmployee g)⟩ (trimList line.data)
              = ⟨f ++ c.toList, some (newEmployee g)⟩ := by
            simp [applyEarnTotal, hst', hc, h]
          rw [this] at hst
          cases hst
          exact ⟨rfl, rfl⟩
        · have : applyEarnTotal ⟨f ++ c.toList, some (newEmployee g)⟩ (trimList line.data)
              = ⟨f ++ c.toList, some (newEmployee g)⟩ := by
            simp [applyEarnTotal, hst', hc]
          rw [this] at hst
          cases hst
          exact ⟨rfl, rfl⟩
      · have : applyEarnTotal ⟨f ++ c.toList, some (newEmployee g)⟩ (trimList line.data)
            = ⟨f ++ c.toList, some { newEmployee g with
                earnings := (newEmployee g).earnings ++ [e] }⟩ := by
          simp [applyEarnTotal, hst']
        rw [this] at hst
        cases hst
        exact ⟨rfl, rfl⟩
    right
    rw [show applyHeader ⟨f, c⟩ (trimList line.data)
          = ⟨f ++ c.toList, some (newEmployee g)⟩ by simp [applyHeader, hh], hst]
    simp [totalsList, flushState, totalsOf, hcur.1, hcur.2]
  | none =>
    rw [show applyHeader ⟨f, c⟩ (trimList line.data) = ⟨f, c⟩ by simp [applyHeader, hh]]
    cases c with
    | none => left; rw [applyEarnTotal_nil_cur]
    | some cur =>
      left
      cases he : earningOf (trimList line.data) with
      | some e =>
        rw [show applyEarnTotal ⟨f, some cur⟩ (trimList line.data)
              = ⟨f, some { cur with earnings := cur.earnings ++ [e] }⟩ by
            simp [applyEarnTotal, he]]
        simp [totalsList, flushState, totalsOf]
      | none =>
        by_cases hc : containsSub totalMarker (trimList line.data)
        · rw [show applyEarnTotal ⟨f, some cur⟩ (trimList line.data) = ⟨f, some cur⟩ by
            simp [applyEarnTotal, he, hc, h]]
        · rw [show applyEarnTotal ⟨f, some cur⟩ (trimList line.data) = ⟨f, some cur⟩ by
            simp [applyEarnTotal, he, hc]]

/-- C7 witness: scenario 4, a "Total Earnings:" line with only one
trailing number, instantiated at a current record with unset totals. -/
theorem total_no_match_totals_unchanged_witness :
    totalSearch (trimList ("Total Earnings: 5.00" : String).data) = none
    ∧ (totalsList (stepLine ⟨[], some sampleEmployee⟩ "Total Earnings: 5.00")
         = totalsList ⟨[], some sampleEmployee⟩
       ∨ totalsList (stepLine ⟨[], some sampleEmployee⟩ "Total Earnings: 5.00")
         = totalsList ⟨[], some sampleEmployee⟩ ++ [(none, none)]) :=
  ⟨by decide, total_no_match_totals_unchanged ⟨[], some sampleEmployee⟩ _ (by decide)⟩

/-- C8: the parse is total and a line on which no pattern fires is a
no-op on the state, so a document of arbitrary malformed lines runs to
completion, and an all-non-matching document yields an empty employee
list. -/
theorem unmatched_lines_skipped :
    (∀ (st : ParserState) (line : String), lineNoMatch line = true → stepLine st line = st)
    ∧ ∀ lines : List String, (∀ line ∈ lines, lineNoMatch line = true) → parseLines lines = [] := by
  have hstep : ∀ (st : ParserState) (line : String),
      lineNoMatch line = true → stepLine st line = st := by
    intro st line h
    simp only [lineNoMatch, Bool.and_eq_true, Option.isNone_iff_eq_none] at h
    obtain ⟨⟨hh, he⟩, ht⟩ := h
    obtain ⟨f, c⟩ := st
    have hsl : stepLine ⟨f, c⟩ line
        = applyEarnTotal (applyHeader ⟨f, c⟩ (trimList line.data)) (trimList line.data) := rfl
    rw [hsl, show applyHeader ⟨f, c⟩ (trimList line.data) = ⟨f, c⟩ by simp [applyHeader, hh]]
    cases c with
    | none => exact applyEarnTotal_nil_cur f _
    | some cur =>
      by_cases hc : containsSub totalMarker (trimList line.data)
      · simp [applyEarnTotal, he, hc, ht]
      · simp [applyEarnTotal, he, hc]
  refine ⟨hstep, ?_⟩
  have hrun : ∀ (lines : List String) (st : ParserState),
      (∀ line ∈ lines, lineNoMatch line = true) → runLines st lines = st := by
    intro lines
    induction lines with
    | nil => intro st _; rfl
    | cons a t ih =>
      intro st h
      have h0 : runLines st (a :: t) = runLines (stepLine st a) t := rfl
      rw [h0, hstep st a (h a (by simp))]
      exact ih st (fun x hx => h x (by simp [hx]))
  intro lines h
  simp [parseLines, parseLinesFrom, hrun lines _ h, flushState]

/-- C8 witness: three concrete pattern-free lines parse to the empty
result. -/
theorem unmatched_lines_skipped_witness :
    (∀ line ∈ ["alpha beta gamma", "12345", "Total Earnings:"], lineNoMatch line = true)
    ∧ parseLines ["alpha beta gamma", "12345", "Total Earnings:"] = [] :=
  ⟨by decide, unmatched_lines_skipped.2 _ (by decide)⟩

/-- C9: the parse result is a function of the fed page texts alone:
two fresh extractor instances (with arbitrary, even different, stored
paths) fed the same page sequence produce equal employee lists in
every field, so nothing leaks between instances. -/
theorem extract_deterministic_no_leak (p₁ p₂ : String) (pages : List (Option String)) :
    (extractPages (DataExtractor.init p₁) pages).employees
      = (extractPages (DataExtractor.init p₂) pages).employees := by
  have hfeed : ∀ (q : String) (E : List EmployeeRecord) (pg : Option String),
      feedPage ⟨q, E⟩ pg = ⟨q, pageFold E pg⟩ := by
    intro q E pg
    cases pg with
    | none => rfl
    | some t => by_cases ht : t = "" <;> simp [feedPage, pageFold, ht]
  have hmain : ∀ (pages : List (Option String)) (q E),
      (extractPages ⟨q, E⟩ pages).employees = pages.foldl pageFold E := by
    intro pages
    induction pages with
    | nil => intro q E; rfl
    | cons pg t ih =>
      intro q E
      have h0 : extractPages ⟨q, E⟩ (pg :: t) = extractPages (feedPage ⟨q, E⟩ pg) t := rfl
      rw [h0, hfeed, ih]
      rfl
  rw [hmain, hmain]
  rfl

/-- C10: while a record is current, each matching "Total Earnings:"
line overwrites both total fields, so after two such lines the record
carries exactly the cleaned values of the second one; the first line's
values are silently replaced. -/
theorem totals_last_write_wins (f : List EmployeeRecord) (r : EmployeeRecord)
    (l₁ l₂ : String) (g₁ g₂ : String × String)
    (hh₁ : headerMatch (trimList l₁.data) = none)
    (he₁ : earningOf (trimList l₁.data) = none)
    (hc₁ : containsSub totalMarker (trimList l₁.data) = true)
    (ht₁ : totalSearch (trimList l₁.data) = some g₁)
    (hh₂ : headerMatch (trimList l₂.data) = none)
    (he₂ : earningOf (trimList l₂.data) = none)
    (hc₂ : containsSub totalMarker (trimList l₂.data) = true)
    (ht₂ : totalSearch (trimList l₂.data) = some g₂) :
    stepLine (stepLine ⟨f, some r⟩ l₁) l₂
      = ⟨f, some { r with total_hours := some (cleanCurrency (some g₂.1)),
                          total_amount := some (cleanCurrency (some g₂.2)) }⟩ := by
  have h1 : stepLine ⟨f, some r⟩ l₁
      = ⟨f, some { r with total_hours := some (cleanCurrency (some g₁.1)),
                          total_amount := some (cleanCurrency (some g₁.2)) }⟩ := by
    have hsl : stepLine ⟨f, some r⟩ l₁
        = applyEarnTotal (applyHeader ⟨f, some r⟩ (trimList l₁.data)) (trimList l₁.data) := rfl
    rw [hsl, show applyHeader ⟨f, some r⟩ (trimList l₁.data) = ⟨f, some r⟩ by
      simp [applyHeader, hh₁]]
    simp [applyEarnTotal, he₁, hc₁, ht₁]
  rw [h1]
  have hsl : stepLine ⟨f, some { r with total_hours := some (cleanCurrency (some g₁.1)),
                                        total_amount := some (cleanCurrency (some g₁.2)) }⟩ l₂
      = applyEarnTotal (applyHeader ⟨f, some { r with
            total_hours := some (cleanCurrency (some g₁.1)),
            total_amount := some (cleanCurrency (some g₁.2)) }⟩ (trimList l₂.data))
          (trimList l₂.data) := rfl
  rw [hsl, show applyHeader ⟨f, some { r with
        total_hours := some (cleanCurrency (some g₁.1)),
        total_amount := some (cleanCurrency (some g₁.2)) }⟩ (trimList l₂.data)
      = ⟨f, some { r with total_hours := some (cleanCurrency (some g₁.1)),
                          total_amount := some (cleanCurrency (some g₁.2)) }⟩ by
    simp [applyHeader, hh₂]]
  simp [applyEarnTotal, he₂, hc₂, ht₂]

/-- C10 witness: two concrete matching total lines; the record ends
with the second line's values 5 and 50. -/
theorem totals_last_write_wins_witness :
    headerMatch (trimList ("Total Earnings: 1.00 2.00" : String).data) = none
    ∧ earningOf (trimList ("Total Earnings: 1.00 2.00" : String).data) = none
    ∧ containsSub totalMarker (trimList ("Total Earnings: 1.00 2.00" : String).data) = true
    ∧ totalSearch (trimList ("Total Earnings: 1.00 2.00" : String).data) = some ("1.00", "2.00")
    ∧ headerMatch (trimList ("Total Earnings: 5.00 50.00" : String).data) = none
    ∧ earningOf (trimList ("Total Earnings: 5.00 50.00" : String).data) = none
    ∧ containsSub totalMarker (trimList ("Total Earnings: 5.00 50.00" : String).data) = true
    ∧ totalSearch (trimList ("Total Earnings: 5.00 50.00" : String).data) = some ("5.00", "50.00")
    ∧ stepLine (stepLine ⟨[], some sampleEmployee⟩ "Total Earnings: 1.00 2.00")
          "Total Earnings: 5.00 50.00"
        = ⟨[], some { sampleEmployee with
            total_hours := some (cleanCurrency (some "5.00")),
            total_amount := some (cleanCurrency (some "50.00")) }⟩ :=
  ⟨by decide, by decide, by decide, by decide, by decide, by decide, by decide, by decide,
    totals_last_write_wins [] sampleEmployee _ _ ("1.00", "2.00") ("5.00", "50.00")
      (by decide) (by decide) (by decide) (by decide)
      (by decide) (by decide) (by decide) (by decide)⟩

/-- C1 counterexample: a header page followed by a separately-fed page
holding only an earnings row yields a record with an EMPTY earnings
list — `parse_text_data` resets `current_employee` to `None` at each
call, so the entry is dropped instead of being appended to the record
opened on the earlier page. -/
theorem cross_page_earnings_dropped_cex :
    (extractPages (DataExtractor.init "invoice.pdf")
      [some "1001 – Smith, John", some "Hourly- 01/02/25 10.00 5.00 50.00"]).employees
      = [{ employee_id := "1001", employee_name := "Smith, John", earnings := [],
           total_hours := none, total_amount := none }] := by
  decide

/-- C1 amended: the "current employee record" state is NOT reused
across page boundaries: every `parse_text_data` call starts with no
current record, so a fed page none of whose lines matches the header
pattern leaves the employees list exactly unchanged — its earnings
rows are ignored rather than appended to a record opened on an earlier
page (completed records themselves do persist across pages). -/
theorem page_without_header_has_no_effect (ex : DataExtractor) (t : String)
    (h : ∀ line ∈ splitLines t, headerMatch (trimList line.data) = none) :
    (feedPage ex (some t)).employees = ex.employees := by
  have hrun : ∀ (lines : List String) (f : List EmployeeRecord),
      (∀ line ∈ lines, headerMatch (trimList line.data) = none) →
      runLines ⟨f, none⟩ lines = ⟨f, none⟩ := by
    intro lines
    induction lines with
    | nil => intro f _; rfl
    | cons a tl ih =>
      intro f hl
      have h1 := hl a (by simp)
      have hstep : stepLine ⟨f, none⟩ a = ⟨f, none⟩ := by
        have hsl : stepLine ⟨f, none⟩ a
            = applyEarnTotal (applyHeader ⟨f, none⟩ (trimList a.data)) (trimList a.data) := rfl
        rw [hsl, show applyHeader ⟨f, none⟩ (trimList a.data) = ⟨f, none⟩ by
          simp [applyHeader, h1]]
        exact applyEarnTotal_nil_cur f _
      have h0 : runLines ⟨f, none⟩ (a :: tl) = runLines (stepLine ⟨f, none⟩ a) tl := rfl
      rw [h0, hstep]
      exact ih f (fun x hx => hl x (by simp [hx]))
  unfold feedPage
  by_cases ht : t = ""
  · simp [ht]
  · simp [ht, parseLinesFrom, hrun (splitLines t) ex.employees h, flushState]

/-- C1 amended witness: a page consisting of one earnings row, fed to
an extractor already holding one record, changes nothing. -/
theorem page_without_header_has_no_effect_witness :
    (∀ line ∈ splitLines "Hourly- 01/02/25 10.00 5.00 50.00",
        headerMatch (trimList line.data) = none)
    ∧ (feedPage ⟨"invoice.pdf", [sampleEmployee]⟩
          (some "Hourly- 01/02/25 10.00 5.00 50.00")).employees
        = [sampleEmployee] :=
  ⟨by decide,
    page_without_header_has_no_effect ⟨"invoice.pdf", [sampleEmployee]⟩ _ (by decide)⟩

/-- C5 counterexample: a row whose type token "Salary-" ends in a
literal hyphen, in exactly the claimed shape and with a record
current, is NOT appended: the earnings regex only matches the literal
"Hourly-". -/
theorem salary_row_not_appended_cex :
    parseLines ["1001 – Smith, John", "Salary- 01/02/25 10.00 5.00 50.00"]
      = [{ employee_id := "1001", employee_name := "Smith, John", earnings := [],
           total_hours := none, total_amount := none }] := by
  decide

/-- C5 amended: only the literal type token "Hourly-" is recognized by
the earnings-row pattern; whenever the pattern matches with a record
current, one entry is appended to that record carrying type "Hourly"
(trailing hyphen stripped) and the three numeric tokens cleaned into
rate, hours and amount in that order. -/
theorem earning_row_literal_hourly :
    (∀ (l : List Char) (g : EarnGroups), earningGroups l = some g → g.g1 = "Hourly-")
    ∧ (∀ (l : List Char) (g : EarnGroups), earningGroups l = some g →
        earningOf l = some { type := "Hourly",
                             date := g.date,
                             rate := cleanCurrency (some g.rateTok),
                             hours := cleanCurrency (some g.hoursTok),
                             amount := cleanCurrency (some g.amountTok) })
    ∧ ∀ (f : List EmployeeRecord) (cur : EmployeeRecord) (line : String) (e : EarningEntry),
        headerMatch (trimList line.data) = none →
        earningOf (trimList line.data) = some e →
        stepLine ⟨f, some cur⟩ line = ⟨f, some { cur with earnings := cur.earnings ++ [e] }⟩ := by
  have hAt : ∀ (l : List Char) (g : EarnGroups), matchEarningAt l = some g → g.g1 = "Hourly-" := by
    intro l g h
    simp only [matchEarningAt, Option.pure_def, Option.bind_eq_bind, Option.bind_eq_some] at h
    obtain ⟨r0, -, r1, -, ⟨d, r2⟩, -, h⟩ := h
    obtain ⟨r3, -, ⟨t1, r4⟩, -, h⟩ := h
    obtain ⟨r5, -, ⟨t2, r6⟩, -, h⟩ := h
    obtain ⟨r7, -, ⟨t3, r8⟩, -, h⟩ := h
    cases h
    rfl
  have hS : ∀ (l : List Char) (g : EarnGroups), earningGroups l = some g → g.g1 = "Hourly-" := by
    intro l
    induction l with
    | nil => intro g h; exact hAt [] g h
    | cons c rest ih =>
      intro g h
      unfold earningGroups searchGroups at h
      cases hA : matchEarningAt (c :: rest) with
      | some x =>
        rw [hA] at h
        cases h
        exact hAt _ _ hA
      | none =>
        rw [hA] at h
        exact ih g h
  refine ⟨hS, ?_, ?_⟩
  · intro l g h
    have hg1 := hS l g h
    have heq : mkEarning g = { type := "Hourly",
                               date := g.date,
                               rate := cleanCurrency (some g.rateTok),
                               hours := cleanCurrency (some g.hoursTok),
                               amount := cleanCurrency (some g.amountTok) } := by
      unfold mkEarning
      rw [hg1]
      simp only [EarningEntry.mk.injEq, and_true, true_and, and_self]
      decide
    rw [earningOf, h]
    show some (mkEarning g) = _
    rw [heq]
  · intro f cur line e hh he
    have hsl : stepLine ⟨f, some cur⟩ line
        = applyEarnTotal (applyHeader ⟨f, some cur⟩ (trimList line.data))
            (trimList line.data) := rfl
    rw [hsl, show applyHeader ⟨f, some cur⟩ (trimList line.data) = ⟨f, some cur⟩ by
      simp [applyHeader, hh]]
    simp [applyEarnTotal, he]

/-- C5 amended witness: the concrete Hourly row appended to a current
record. -/
theorem earning_row_literal_hourly_witness :
    headerMatch (trimList ("Hourly- 01/02/25 10.00 5.00 50.00" : String).data) = none
    ∧ earningOf (trimList ("Hourly- 01/02/25 10.00 5.00 50.00" : String).data) = some sampleEntry
    ∧ stepLine ⟨[], some sampleEmployee⟩ "Hourly- 01/02/25 10.00 5.00 50.00"
        = ⟨[], some { sampleEmployee with
            earnings := sampleEmployee.earnings ++ [sampleEntry] }⟩ :=
  ⟨by decide, by decide,
    earning_row_literal_hourly.2.2 [] sampleEmployee _ sampleEntry (by decide) (by decide)⟩

/-- C6 counterexample: the serialized object of an employee for which
no "Total Earnings:" line matched exposes NO `total_hours` or
`total_amount` key at all — `json.dumps` emits only the keys present
in the dict, and those keys are never created for such a record, so
they are absent rather than `null`. -/
theorem json_total_keys_absent_cex :
    (parseLines ["1001 – Smith, John"]).map
      (fun r => ((lookupField (employeeToJson r) "total_hours").isNone,
                 (lookupField (employeeToJson r) "total_amount").isNone))
      = [(true, true)] := by
  decide

/-- C6 amended: in the serialized JSON, an employee object carries a
`total_hours` (resp. `total_amount`) key exactly when a "Total
Earnings:" line matched while that record was current; a present key
holds the cleaned number, or JSON null when the token failed numeric
cleaning; a record with no matching total line omits both keys. -/
theorem json_total_keys_match_record (r : EmployeeRecord) :
    lookupField (employeeToJson r) "total_hours" = r.total_hours.map optNumJson
    ∧ lookupField (employeeToJson r) "total_amount" = r.total_amount.map optNumJson := by
  cases h1 : r.total_hours <;> cases h2 : r.total_amount <;>
    simp [employeeToJson, lookupField, objFields, h1, h2, List.lookup]

/-- Refinement of the line loop by the spec-level grouping: running
the loop from records `f` and current record `c` produces, up to the
(id, name, earnings) projection, the records of `f` followed by the
continuation grouping of the remaining lines. -/
theorem runLines_spec (lines : List String) :
    ∀ (f : List EmployeeRecord) (c : Option EmployeeRecord),
      (flushState (runLines ⟨f, c⟩ lines)).map projRec = f.map projRec ++ specCont c lines := by
  induction lines with
  | nil =>
    intro f c
    cases c with
    | none => simp [runLines, flushState, specCont, specEmployees]
    | some r => simp [runLines, flushState, specCont, specEmployees, projRec]
  | cons a rest ih =>
    intro f c
    have hrun : runLines ⟨f, c⟩ (a :: rest) = runLines (stepLine ⟨f, c⟩ a) rest := rfl
    rw [hrun]
    cases hh : headerMatch (trimList a.data) with
    | some g =>
      obtain ⟨cur', hst, hid, hname, hearn⟩ :=
        applyEarnTotal_some_cur (f ++ c.toList) (newEmployee g) (trimList a.data)
      have hstep : stepLine ⟨f, c⟩ a = ⟨f ++ c.toList, some cur'⟩ := by
        have hsl : stepLine ⟨f, c⟩ a
            = applyEarnTotal (applyHeader ⟨f, c⟩ (trimList a.data)) (trimList a.data) := rfl
        rw [hsl, show applyHeader ⟨f, c⟩ (trimList a.data)
              = ⟨f ++ c.toList, some (newEmployee g)⟩ by simp [applyHeader, hh], hst]
      rw [hstep, ih]
      have hnh : notHeaderLine a = false := by simp [notHeaderLine, hh]
      simp only [newEmployee] at hid hname hearn
      cases c with
      | none =>
        simp [specCont, specEmployees, hh, hid, hname, hearn, earnOfLine,
              List.filterMap_cons]
        cases he : earningOf (trimList a.data) <;> simp [he]
      | some r =>
        simp [specCont, specEmployees, hh, hid, hname, hearn, earnOfLine, hnh,
              List.filterMap_cons, List.takeWhile_cons, List.dropWhile_cons, projRec]
        cases he : earningOf (trimList a.data) <;> simp [he]
    | none =>
      have hnh : notHeaderLine a = true := by simp [notHeaderLine, hh]
      cases c with
      | none =>
        have hstep : stepLine ⟨f, none⟩ a = ⟨f, none⟩ := by
          have hsl : stepLine ⟨f, none⟩ a
              = applyEarnTotal (applyHeader ⟨f, none⟩ (trimList a.data)) (trimList a.data) := rfl
          rw [hsl, show applyHeader ⟨f, none⟩ (trimList a.data) = ⟨f, none⟩ by
            simp [applyHeader, hh]]
          exact applyEarnTotal_nil_cur f _
        rw [hstep, ih]
        simp [specCont, specEmployees, hh]
      | some r =>
        obtain ⟨cur', hst, hid, hname, hearn⟩ :=
          applyEarnTotal_some_cur f r (trimList a.data)
        have hstep : stepLine ⟨f, some r⟩ a = ⟨f, some cur'⟩ := by
          have hsl : stepLine ⟨f, some r⟩ a
              = applyEarnTotal (applyHeader ⟨f, some r⟩ (trimList a.data)) (trimList a.data) := rfl
          rw [hsl, show applyHeader ⟨f, some r⟩ (trimList a.data) = ⟨f, some r⟩ by
            simp [applyHeader, hh], hst]
        rw [hstep, ih]
        simp [specCont, hid, hname, hearn, earnOfLine, hnh,
              List.filterMap_cons, List.takeWhile_cons, List.dropWhile_cons]
        cases he : earningOf (trimList a.data) <;> simp [he]

/-- C2: up to the (id, name, earnings) projection, parsing equals the
spec-level grouping: every earnings entry lands in the record opened
by the most recent header line at or before it (its group runs only up
to the next header, so no later header intervenes), and earnings-row
lines before any header line produce no record and no entry. -/
theorem entries_belong_to_most_recent_header (lines : List String) :
    (parseLines lines).map projRec = specEmployees lines := by
  have h := runLines_spec lines [] none
  simpa [parseLines, parseLinesFrom, specCont] using h
